import Mathlib

/-!
# Verification of the smart-manager DCS core

A shallow embedding, in Lean 4, of the parts of the MorseMicro smart-manager
repository that the checked claims are about:

* the DCS channel model and the shared best-channel helper
  (`src/modules/dcs/algo.c`),
* the EWMA and sample-and-hold decision algorithms
  (`src/modules/dcs/algorithms/ewma.c`, `sample_and_hold.c`),
* the channel-switch routine and primary-channel arithmetic
  (`src/modules/dcs/dcs.c`),
* the replay measurement source (`src/modules/dcs/dcs_test.c`),
* the generic-netlink argument marshaller (`src/backend/nl80211.c`),
* the AP-ctrl text response parser (`src/backend/hostapd_ctrl.c`),
* the data-item search helpers (`src/engine/helpers.c`).

Machine integers are modelled as `Nat` with an explicit `% 2 ^ w`
wherever overflow or narrowing is semantically relevant (the EWMA
`uint16_t` cast, the `uint32_t` threshold multiply); fields whose values
are physically tiny (frequencies in kHz, counters) are plain `Nat`, and
`int` differences are computed in `Int`.  C functions that can
dereference a null pointer are embedded as `Option`-returning functions
whose `none` marks the undefined-behaviour path.
-/

namespace SmartManager

/-- Channel object used within DCS (`struct dcs_channel` in `dcs.h`,
flattening `struct morse_cmd_channel_info ch` and
`struct channel_metric metric` into one record; the intrusive list
pointer is represented by membership in a Lean list). -/
structure DcsChannel where
  /-- `ch.frequency_khz` (uint32) -/
  frequency_khz : Nat
  /-- `ch.bandwidth_mhz` (uint8) -/
  bandwidth_mhz : Nat
  /-- `ch.channel_s1g` (uint8) -/
  channel_s1g : Nat
  /-- `metric.accumulated_score` (uint32) -/
  accumulated_score : Nat
  /-- `metric.n_samples` (int, non-negative in every run) -/
  n_samples : Nat
  /-- `metric.rounds_as_best` (int, non-negative in every run) -/
  rounds_as_best : Nat
  deriving DecidableEq, Repr

/-- Distance of a channel from the current channel frequency, as computed in
`dcs_algo_get_channel_with_highest_score`:
`abs((int32_t)(current->ch.frequency_khz - next->ch.frequency_khz))`.
Frequencies are kHz values far below `2 ^ 31`, so the `int32_t`
difference is the exact integer difference. -/
def freqDist (currentFreq : Nat) (c : DcsChannel) : Nat :=
  ((currentFreq : Int) - (c.frequency_khz : Int)).natAbs

/-- One comparison step of the scan-list fold in
`dcs_algo_get_channel_with_highest_score` (`algo.c:100`): decides whether
`next` replaces the running `best`.  Mirrors the chained
`if`/`else if` on scores and, on ties, the frequency-distance rule with
its two special cases for the current channel. -/
def takesNext (currentFreq : Nat) (best next : DcsChannel) : Bool :=
  if next.accumulated_score > best.accumulated_score then
    true
  else if next.accumulated_score = best.accumulated_score then
    -- diff_next / diff_best are the int32 differences from the current channel
    if (currentFreq : Int) - (best.frequency_khz : Int) = 0 then
      false  -- the best is already the current channel: keep it
    else if ((currentFreq : Int) - (next.frequency_khz : Int)).natAbs >
        ((currentFreq : Int) - (best.frequency_khz : Int)).natAbs ∨
        (currentFreq : Int) - (next.frequency_khz : Int) = 0 then
      true   -- next is further away, or next is the current channel
    else
      false
  else
    false

/-- The `list_for_each_entry` loop of
`dcs_algo_get_channel_with_highest_score`, carrying the running best
channel together with its position (the C code carries a pointer, which
is both identity and value). -/
def bestLoop (currentFreq : Nat) (acc : Nat × DcsChannel) :
    List DcsChannel → Nat → Nat × DcsChannel
  | [], _ => acc
  | c :: rest, i =>
      bestLoop currentFreq (if takesNext currentFreq acc.2 c then (i, c) else acc) rest (i + 1)

/-- `dcs_algo_get_channel_with_highest_score` (`algo.c:100-138`).  Takes
the current channel's frequency and the scan list; returns the selected
channel together with its index in the scan list (the C function returns
a pointer into the list), or `none` when the scan list is empty (the C
function returns `NULL`). -/
def dcs_algo_get_channel_with_highest_score (currentFreq : Nat) :
    List DcsChannel → Option (Nat × DcsChannel)
  | [] => none
  | c :: rest => some (bestLoop currentFreq (0, c) rest 1)

/-- Case analysis of `takesNext … = true`: `next` replaces the running
best exactly when it has a strictly higher score, or an equal score while
the best is not the current channel and `next` is either strictly
further from the current frequency or is itself the current channel. -/
theorem takesNext_eq_true_cases {cf : Nat} {b c : DcsChannel}
    (h : takesNext cf b c = true) :
    b.accumulated_score < c.accumulated_score ∨
      (c.accumulated_score = b.accumulated_score ∧ b.frequency_khz ≠ cf ∧
        (freqDist cf b < freqDist cf c ∨ c.frequency_khz = cf)) := by
  unfold takesNext at h
  split_ifs at h with h1 h2 h3 h4
  · exact Or.inl h1
  · refine Or.inr ⟨h2, ?_, ?_⟩
    · intro hfb
      exact absurd (by omega : (cf : Int) - (b.frequency_khz : Int) = 0) h3
    · simp only [freqDist]
      rcases h4 with h4 | h4
      · exact Or.inl (by omega)
      · exact Or.inr (by omega)

/-- Case analysis of `takesNext … = false`: the running best is kept
exactly when `next` scores strictly lower, or ties while either the best
is already the current channel, or `next` is no further away and is not
the current channel. -/
theorem takesNext_eq_false_cases {cf : Nat} {b c : DcsChannel}
    (h : takesNext cf b c = false) :
    c.accumulated_score < b.accumulated_score ∨
      (c.accumulated_score = b.accumulated_score ∧
        (b.frequency_khz = cf ∨
          (freqDist cf c ≤ freqDist cf b ∧ c.frequency_khz ≠ cf))) := by
  unfold takesNext at h
  split_ifs at h with h1 h2 h3 h4
  · refine Or.inr ⟨h2, Or.inl ?_⟩
    omega
  · push_neg at h4
    refine Or.inr ⟨h2, Or.inr ⟨?_, ?_⟩⟩
    · have h5 := h4.1
      simp only [freqDist]
      omega
    · intro hfc
      exact absurd (by omega : (cf : Int) - (c.frequency_khz : Int) = 0) h4.2
  · exact Or.inl (by omega)

/-- `takesNext` looks only at the scores and frequencies of its two
channels. -/
theorem takesNext_congr {cf : Nat} {b1 b2 c1 c2 : DcsChannel}
    (hb : b1.frequency_khz = b2.frequency_khz ∧
      b1.accumulated_score = b2.accumulated_score)
    (hc : c1.frequency_khz = c2.frequency_khz ∧
      c1.accumulated_score = c2.accumulated_score) :
    takesNext cf b1 c1 = takesNext cf b2 c2 := by
  unfold takesNext
  rw [hb.1, hb.2, hc.1, hc.2]

/-- Invariant established by the scan-list fold: the result is among the
candidates, carries the maximal score, is the current channel whenever
some maximal-score candidate sits on the current frequency, and
otherwise maximises the distance from the current frequency among
maximal-score candidates. -/
def BestSpec (cf : Nat) (b : DcsChannel) (rest : List DcsChannel) (r : DcsChannel) : Prop :=
  (r = b ∨ r ∈ rest) ∧
  b.accumulated_score ≤ r.accumulated_score ∧
  (∀ c ∈ rest, c.accumulated_score ≤ r.accumulated_score) ∧
  (b.frequency_khz = cf → b.accumulated_score = r.accumulated_score →
    r.frequency_khz = cf) ∧
  (∀ c ∈ rest, c.frequency_khz = cf → c.accumulated_score = r.accumulated_score →
    r.frequency_khz = cf) ∧
  (b.accumulated_score = r.accumulated_score → r.frequency_khz ≠ cf →
    freqDist cf b ≤ freqDist cf r) ∧
  (∀ c ∈ rest, c.accumulated_score = r.accumulated_score → r.frequency_khz ≠ cf →
    freqDist cf c ≤ freqDist cf r)

theorem bestLoop_spec (cf : Nat) :
    ∀ (rest : List DcsChannel) (b : DcsChannel) (i k : Nat),
      BestSpec cf b rest (bestLoop cf (i, b) rest k).2 := by
  intro rest
  induction rest with
  | nil =>
      intro b i k
      exact ⟨Or.inl rfl, le_refl _, by simp, fun h _ => h, by simp,
        fun _ _ => le_refl _, by simp⟩
  | cons c rest ih =>
      intro b i k
      rw [bestLoop]
      cases htn : takesNext cf b c with
      | true =>
        rw [if_pos rfl]
        obtain ⟨hmem, hscb, hsrest, hcurb, hcurrest, hdistb, hdistrest⟩ := ih c k (k + 1)
        set r := (bestLoop cf (k, c) rest (k + 1)).2 with hr
        rcases takesNext_eq_true_cases htn with hlt | ⟨hsc, hnb, hfar⟩
        · -- next strictly beats the old best
          refine ⟨?_, by omega, ?_, ?_, ?_, ?_, ?_⟩
          · rcases hmem with h | h
            · exact Or.inr (h ▸ List.mem_cons_self c rest)
            · exact Or.inr (List.mem_cons_of_mem c h)
          · intro x hx
            rcases List.mem_cons.mp hx with h | h
            · subst h; exact hscb
            · exact hsrest x h
          · intro _ hsb
            omega
          · intro x hx
            rcases List.mem_cons.mp hx with h | h
            · subst h; exact hcurb
            · exact hcurrest x h
          · intro hsb _
            omega
          · intro x hx
            rcases List.mem_cons.mp hx with h | h
            · subst h; exact hdistb
            · exact hdistrest x h
        · -- tie: next was preferred on distance, or next is the current channel
          refine ⟨?_, by omega, ?_, ?_, ?_, ?_, ?_⟩
          · rcases hmem with h | h
            · exact Or.inr (h ▸ List.mem_cons_self c rest)
            · exact Or.inr (List.mem_cons_of_mem c h)
          · intro x hx
            rcases List.mem_cons.mp hx with h | h
            · subst h; exact hscb
            · exact hsrest x h
          · intro hb _
            exact absurd hb hnb
          · intro x hx
            rcases List.mem_cons.mp hx with h | h
            · subst h; exact hcurb
            · exact hcurrest x h
          · intro hsb hrcf
            rcases hfar with hfar | hfar
            · have : freqDist cf c ≤ freqDist cf r := hdistb (by omega) hrcf
              omega
            · exact absurd (hcurb hfar (by omega)) hrcf
          · intro x hx
            rcases List.mem_cons.mp hx with h | h
            · subst h; exact hdistb
            · exact hdistrest x h
      | false =>
        rw [if_neg (by simp)]
        obtain ⟨hmem, hscb, hsrest, hcurb, hcurrest, hdistb, hdistrest⟩ := ih b i (k + 1)
        set r := (bestLoop cf (i, b) rest (k + 1)).2 with hr
        rcases takesNext_eq_false_cases htn with hlt | ⟨hsc, hkeep⟩
        · -- next scores strictly lower: nothing about it survives
          refine ⟨?_, hscb, ?_, hcurb, ?_, hdistb, ?_⟩
          · rcases hmem with h | h
            · exact Or.inl h
            · exact Or.inr (List.mem_cons_of_mem c h)
          · intro x hx
            rcases List.mem_cons.mp hx with h | h
            · subst h; omega
            · exact hsrest x h
          · intro x hx
            rcases List.mem_cons.mp hx with h | h
            · subst h
              intro _ hxr
              omega
            · exact hcurrest x h
          · intro x hx
            rcases List.mem_cons.mp hx with h | h
            · subst h
              intro hxr _
              omega
            · exact hdistrest x h
        · -- tie: the old best was kept
          refine ⟨?_, hscb, ?_, hcurb, ?_, hdistb, ?_⟩
          · rcases hmem with h | h
            · exact Or.inl h
            · exact Or.inr (List.mem_cons_of_mem c h)
          · intro x hx
            rcases List.mem_cons.mp hx with h | h
            · subst h; omega
            · exact hsrest x h
          · intro x hx
            rcases List.mem_cons.mp hx with h | h
            · subst h
              intro hxcf hxr
              rcases hkeep with hbc | ⟨_, hnc⟩
              · exact hcurb hbc (by omega)
              · exact absurd hxcf hnc
            · exact hcurrest x h
          · intro x hx
            rcases List.mem_cons.mp hx with h | h
            · subst h
              intro hxr hrcf
              have : freqDist cf b ≤ freqDist cf r := hdistb (by omega) hrcf
              rcases hkeep with hbc | ⟨hle, _⟩
              · exact absurd (hcurb hbc (by omega)) hrcf
              · omega
            · exact hdistrest x h

/-- The pair of fields of a channel that the best-channel helper
inspects. -/
def chanView (c : DcsChannel) : Nat × Nat :=
  (c.frequency_khz, c.accumulated_score)

/-- The scan-list fold depends only on the frequencies and accumulated
scores of the channels: runs over two lists that agree channel-by-channel
on those fields select the same position, frequency and score. -/
theorem bestLoop_congr (cf : Nat) :
    ∀ (rest1 rest2 : List DcsChannel),
      rest1.map chanView = rest2.map chanView →
      ∀ (b1 b2 : DcsChannel) (i k : Nat),
        chanView b1 = chanView b2 →
        (bestLoop cf (i, b1) rest1 k).1 = (bestLoop cf (i, b2) rest2 k).1 ∧
        chanView (bestLoop cf (i, b1) rest1 k).2 =
          chanView (bestLoop cf (i, b2) rest2 k).2 := by
  intro rest1
  induction rest1 with
  | nil =>
      intro rest2 hmap b1 b2 i k hb
      have h2 : rest2 = [] := by
        simpa using (List.map_eq_nil_iff.mp hmap.symm)
      subst h2
      exact ⟨rfl, hb⟩
  | cons c1 t1 ih =>
      intro rest2 hmap b1 b2 i k hb
      cases rest2 with
      | nil => simp at hmap
      | cons c2 t2 =>
          simp only [List.map_cons, List.cons.injEq] at hmap
          have hview : chanView b1 = chanView b2 := hb
          have hbpair : b1.frequency_khz = b2.frequency_khz ∧
              b1.accumulated_score = b2.accumulated_score := by
            have h1 := congrArg Prod.fst hview
            have h2 := congrArg Prod.snd hview
            exact ⟨h1, h2⟩
          have hcpair : c1.frequency_khz = c2.frequency_khz ∧
              c1.accumulated_score = c2.accumulated_score := by
            have h1 := congrArg Prod.fst hmap.1
            have h2 := congrArg Prod.snd hmap.1
            exact ⟨h1, h2⟩
          have htk : takesNext cf b1 c1 = takesNext cf b2 c2 :=
            takesNext_congr hbpair hcpair
          rw [bestLoop, bestLoop]
          cases htn : takesNext cf b1 c1 with
          | true =>
              rw [if_pos rfl, if_pos (by rw [← htk, htn])]
              exact ih t2 hmap.2 c1 c2 k (k + 1) (by
                simp [chanView, hcpair.1, hcpair.2])
          | false =>
              rw [if_neg (by simp), if_neg (by rw [← htk, htn]; simp)]
              exact ih t2 hmap.2 b1 b2 i (k + 1) hb

/-- **C1**: on a non-empty scan list, `dcs_algo_get_channel_with_highest_score`
returns a channel of the list with the highest `accumulated_score`; on
score ties the chosen channel is on the current frequency whenever some
tied-best channel is the current channel, and otherwise lies furthest in
frequency from `current_channel` among the tied-best; and repeated
invocations with unchanged per-channel frequencies and scores select the
same list position (the same pointer) with the same channel data —
determinism is immediate because the helper reads only the scan list and
the current frequency. -/
theorem c1_best_channel_selection (cf : Nat) (l : List DcsChannel) (hne : l ≠ []) :
    ∃ i b, dcs_algo_get_channel_with_highest_score cf l = some (i, b) ∧
      b ∈ l ∧
      (∀ c ∈ l, c.accumulated_score ≤ b.accumulated_score) ∧
      ((∃ c ∈ l, c.accumulated_score = b.accumulated_score ∧ c.frequency_khz = cf) →
        b.frequency_khz = cf) ∧
      ((∀ c ∈ l, c.accumulated_score = b.accumulated_score → c.frequency_khz ≠ cf) →
        ∀ c ∈ l, c.accumulated_score = b.accumulated_score →
          freqDist cf c ≤ freqDist cf b) ∧
      (∀ l2, l2.map chanView = l.map chanView →
        ∃ b2, dcs_algo_get_channel_with_highest_score cf l2 = some (i, b2) ∧
          b2.frequency_khz = b.frequency_khz ∧
          b2.accumulated_score = b.accumulated_score) := by
  cases l with
  | nil => exact absurd rfl hne
  | cons c rest =>
      obtain ⟨hmem, hscb, hsrest, hcurb, hcurrest, hdistb, hdistrest⟩ :=
        bestLoop_spec cf rest c 0 1
      have hrmem : (bestLoop cf (0, c) rest 1).2 ∈ c :: rest := by
        rcases hmem with h | h
        · rw [h]; exact List.mem_cons_self c rest
        · exact List.mem_cons_of_mem c h
      refine ⟨(bestLoop cf (0, c) rest 1).1, (bestLoop cf (0, c) rest 1).2,
        rfl, hrmem, ?_, ?_, ?_, ?_⟩
      · intro x hx
        rcases List.mem_cons.mp hx with h | h
        · subst h; exact hscb
        · exact hsrest x h
      · rintro ⟨x, hx, hxs, hxf⟩
        rcases List.mem_cons.mp hx with h | h
        · subst h; exact hcurb hxf hxs
        · exact hcurrest x h hxf hxs
      · intro hno x hx hxs
        have hrcf : (bestLoop cf (0, c) rest 1).2.frequency_khz ≠ cf :=
          hno _ hrmem rfl
        rcases List.mem_cons.mp hx with h | h
        · subst h; exact hdistb hxs hrcf
        · exact hdistrest x h hxs hrcf
      · intro l2 hmap
        cases l2 with
        | nil => simp at hmap
        | cons c2 rest2 =>
            simp only [List.map_cons, List.cons.injEq] at hmap
            obtain ⟨hidx, hview⟩ :=
              bestLoop_congr cf rest2 rest hmap.2 c2 c 0 1 hmap.1
            have h1 : (bestLoop cf (0, c2) rest2 1).2.frequency_khz =
                (bestLoop cf (0, c) rest 1).2.frequency_khz :=
              congrArg Prod.fst hview
            have h2 : (bestLoop cf (0, c2) rest2 1).2.accumulated_score =
                (bestLoop cf (0, c) rest 1).2.accumulated_score :=
              congrArg Prod.snd hview
            refine ⟨(bestLoop cf (0, c2) rest2 1).2, ?_, h1, h2⟩
            have hself : dcs_algo_get_channel_with_highest_score cf (c2 :: rest2) =
                some ((bestLoop cf (0, c2) rest2 1).1,
                  (bestLoop cf (0, c2) rest2 1).2) := rfl
            rw [hself, hidx]

/-- The concrete scan list used by the C1 witness: current frequency 5,
two channels tied at score 7 (frequencies 2 and 8) and the current
channel at score 4. -/
def c1WitnessList : List DcsChannel :=
  [⟨2, 1, 1, 7, 0, 0⟩, ⟨8, 1, 2, 7, 0, 0⟩, ⟨5, 1, 3, 4, 0, 0⟩]

/-- Witness for C1: the selection theorem applied to `c1WitnessList`. -/
theorem c1_best_channel_selection_witness :
    (c1WitnessList ≠ []) ∧
    (∃ i b, dcs_algo_get_channel_with_highest_score 5 c1WitnessList = some (i, b) ∧
      b ∈ c1WitnessList ∧
      (∀ c ∈ c1WitnessList, c.accumulated_score ≤ b.accumulated_score) ∧
      ((∃ c ∈ c1WitnessList,
          c.accumulated_score = b.accumulated_score ∧ c.frequency_khz = 5) →
        b.frequency_khz = 5) ∧
      ((∀ c ∈ c1WitnessList,
          c.accumulated_score = b.accumulated_score → c.frequency_khz ≠ 5) →
        ∀ c ∈ c1WitnessList, c.accumulated_score = b.accumulated_score →
          freqDist 5 c ≤ freqDist 5 b) ∧
      (∀ l2, l2.map chanView = c1WitnessList.map chanView →
        ∃ b2, dcs_algo_get_channel_with_highest_score 5 l2 = some (i, b2) ∧
          b2.frequency_khz = b.frequency_khz ∧
          b2.accumulated_score = b.accumulated_score)) :=
  ⟨by decide, c1_best_channel_selection 5 c1WitnessList (by decide)⟩

/-! ## EWMA algorithm (`src/modules/dcs/algorithms/ewma.c`) -/

/-- `apply_ewma` (`ewma.c:63-72`).  `alpha` is a `uint8_t`; the products
and the sum are computed in `uint32_t` (hence `% 2 ^ 32`), the quotient
is returned through the `uint16_t` return type (hence `% 2 ^ 16`).
`alpha_last` is `(uint32_t)(EWMA_ALPHA_MAX - alpha)`: an `int`
subtraction converted to `uint32_t`, written here as an `Int`
subtraction reduced mod `2 ^ 32`. -/
def apply_ewma (alpha new_score last_score : Nat) : Nat :=
  let alpha_cur := alpha
  let alpha_last := (((100 : Int) - (alpha : Int)) % (2 ^ 32)).toNat
  (alpha_cur * new_score + alpha_last * last_score) % 2 ^ 32 / 100 % 2 ^ 16

/-- `ewma_op_process_measurement` (`ewma.c:141-152`): bump `n_samples`
and replace the accumulated score by the EWMA of the measurement's
metric and the previous score. -/
def ewma_op_process_measurement (alpha meas_metric : Nat) (channel : DcsChannel) :
    DcsChannel :=
  { channel with
    n_samples := channel.n_samples + 1
    accumulated_score := apply_ewma alpha meas_metric channel.accumulated_score }

/-- Counterexample to C2 as universally stated: with `alpha = 20`,
metric `m = 50` and a channel at score `s = 6553600`, the claim's value
`(α·m + (100−α)·s) / 100 = 5242890` does not fit in the `uint16_t`
return type of `apply_ewma`, and the code stores `5242890 % 2 ^ 16 = 10`
instead. -/
theorem c2_ewma_counterexample :
    (ewma_op_process_measurement 20 50 ⟨1, 1, 1, 6553600, 0, 0⟩).accumulated_score = 10 ∧
    (20 * 50 + (100 - 20) * 6553600) / 100 = 5242890 ∧
    (ewma_op_process_measurement 20 50 ⟨1, 1, 1, 6553600, 0, 0⟩).accumulated_score ≠
      (20 * 50 + (100 - 20) * 6553600) / 100 := by
  refine ⟨?_, by norm_num, ?_⟩ <;> decide

/-- **C2** (amended): one `ewma_op_process_measurement` call sets the
channel's score to `(α·m + (100−α)·s) / 100` (integer division) and
increments `n_samples` by exactly one, provided the previous score `s`
fits in the 16-bit range of `apply_ewma`'s return type (`s ≤ 65535`,
which every EWMA-maintained score satisfies); in general the stored
value is that quotient truncated to 16 bits. -/
theorem c2_ewma_process_measurement (alpha m : Nat) (chan : DcsChannel)
    (ha : alpha ≤ 100) (hm : m ≤ 255) (hs : chan.accumulated_score ≤ 65535) :
    (ewma_op_process_measurement alpha m chan).accumulated_score =
      (alpha * m + (100 - alpha) * chan.accumulated_score) / 100 ∧
    (ewma_op_process_measurement alpha m chan).n_samples = chan.n_samples + 1 := by
  constructor
  · show apply_ewma alpha m chan.accumulated_score = _
    unfold apply_ewma
    have hal : (((100 : Int) - (alpha : Int)) % (2 ^ 32)).toNat = 100 - alpha := by
      rw [Int.emod_eq_of_lt (by omega) (by omega)]
      omega
    simp only [hal]
    have h1 : alpha * m ≤ alpha * 65535 :=
      Nat.mul_le_mul le_rfl (hm.trans (by norm_num))
    have h2 : (100 - alpha) * chan.accumulated_score ≤ (100 - alpha) * 65535 :=
      Nat.mul_le_mul le_rfl hs
    have h3 : alpha * 65535 + (100 - alpha) * 65535 = 6553500 := by
      have h4 : alpha + (100 - alpha) = 100 := by omega
      calc alpha * 65535 + (100 - alpha) * 65535
          = (alpha + (100 - alpha)) * 65535 := by ring
        _ = 100 * 65535 := by rw [h4]
        _ = 6553500 := by norm_num
    have hb : alpha * m + (100 - alpha) * chan.accumulated_score ≤ 6553500 := by
      omega
    rw [Nat.mod_eq_of_lt (lt_of_le_of_lt hb (by norm_num))]
    have hq : (alpha * m + (100 - alpha) * chan.accumulated_score) / 100 ≤ 6553500 / 100 :=
      Nat.div_le_div_right hb
    exact Nat.mod_eq_of_lt (by omega)
  · rfl

/-- Witness for C2 at the spec's S2 scenario: `α = 20`, previous score
100, metric 50; the amended theorem applies and yields score 90 and
`n_samples = 1`. -/
theorem c2_ewma_process_measurement_witness :
    ((20 : Nat) ≤ 100 ∧ (50 : Nat) ≤ 255 ∧
      (⟨1, 1, 1, 100, 0, 0⟩ : DcsChannel).accumulated_score ≤ 65535) ∧
    ((ewma_op_process_measurement 20 50 ⟨1, 1, 1, 100, 0, 0⟩).accumulated_score =
        (20 * 50 + (100 - 20) * (⟨1, 1, 1, 100, 0, 0⟩ : DcsChannel).accumulated_score) / 100 ∧
      (ewma_op_process_measurement 20 50 ⟨1, 1, 1, 100, 0, 0⟩).n_samples =
        (⟨1, 1, 1, 100, 0, 0⟩ : DcsChannel).n_samples + 1) ∧
    (ewma_op_process_measurement 20 50 ⟨1, 1, 1, 100, 0, 0⟩).accumulated_score = 90 ∧
    (ewma_op_process_measurement 20 50 ⟨1, 1, 1, 100, 0, 0⟩).n_samples = 1 :=
  ⟨⟨by decide, by decide, by decide⟩,
    c2_ewma_process_measurement 20 50 ⟨1, 1, 1, 100, 0, 0⟩ (by decide) (by decide) (by decide),
    by decide, by decide⟩

/-! ## Shared algorithm helpers (`algo.h`, `algo.c`) -/

/-- `dcs_algo_calculate_threshold` (`algo.h:124-128`):
`(current_score * (100 + threshold_percentage)) / 100` in `uint32_t`
arithmetic — the product wraps mod `2 ^ 32`. -/
def dcs_algo_calculate_threshold (current_score threshold_percentage : Nat) : Nat :=
  current_score * (100 + threshold_percentage) % 2 ^ 32 / 100

/-- `dcs_algo_reset_accumulated_scores` (`algo.c:140-151`): set every
scan-list channel's `accumulated_score` to `reset_val` and its
`n_samples` to 0. -/
def dcs_algo_reset_accumulated_scores (reset_val : Nat) (l : List DcsChannel) :
    List DcsChannel :=
  l.map fun c => { c with accumulated_score := reset_val, n_samples := 0 }

theorem mem_reset_accumulated_scores {v : Nat} {l : List DcsChannel} {c : DcsChannel}
    (h : c ∈ dcs_algo_reset_accumulated_scores v l) : c.accumulated_score = v := by
  simp only [dcs_algo_reset_accumulated_scores, List.mem_map] at h
  obtain ⟨a, _, ha⟩ := h
  rw [← ha]

/-- The index returned by the scan-list fold addresses the returned
channel: the C pointer and the modelled `(index, value)` pair agree. -/
theorem bestLoop_get (cf : Nat) :
    ∀ (rest : List DcsChannel) (b : DcsChannel) (i k : Nat) (l : List DcsChannel),
      l.get? i = some b →
      (∀ j, j < rest.length → l.get? (k + j) = rest.get? j) →
      l.get? (bestLoop cf (i, b) rest k).1 = some (bestLoop cf (i, b) rest k).2 := by
  intro rest
  induction rest with
  | nil =>
      intro b i k l hb _
      exact hb
  | cons c t ih =>
      intro b i k l hb hpos
      have hc : l.get? k = some c := by
        have h0 := hpos 0 (by simp)
        simpa using h0
      have hpos2 : ∀ j, j < t.length → l.get? (k + 1 + j) = t.get? j := by
        intro j hj
        have h1 := hpos (j + 1) (by simpa using Nat.succ_lt_succ hj)
        have h2 : k + (j + 1) = k + 1 + j := by omega
        rw [h2] at h1
        simpa using h1
      rw [bestLoop]
      cases htn : takesNext cf b c with
      | true =>
          rw [if_pos rfl]
          exact ih c k (k + 1) l hc hpos2
      | false =>
          rw [if_neg (by simp)]
          exact ih b i (k + 1) l hb hpos2

/-- The best-channel helper returns a position/channel pair that is an
actual entry of the scan list. -/
theorem get_channel_with_highest_score_get {cf : Nat} {l : List DcsChannel}
    {i : Nat} {b : DcsChannel}
    (h : dcs_algo_get_channel_with_highest_score cf l = some (i, b)) :
    l.get? i = some b := by
  cases l with
  | nil => simp [dcs_algo_get_channel_with_highest_score] at h
  | cons c rest =>
      have h2 : bestLoop cf (0, c) rest 1 = (i, b) := by
        simpa [dcs_algo_get_channel_with_highest_score] using h
      have h3 := bestLoop_get cf rest c 0 1 (c :: rest) rfl ?_
      · rw [h2] at h3
        exact h3
      · intro j hj
        have h4 : 1 + j = j + 1 := by omega
        rw [h4]
        simp
/-- The best-channel helper succeeds on every non-empty scan list. -/
theorem get_channel_with_highest_score_of_ne_nil (cf : Nat) (l : List DcsChannel)
    (hl : l ≠ []) :
    ∃ i b, dcs_algo_get_channel_with_highest_score cf l = some (i, b) := by
  cases l with
  | nil => exact absurd rfl hl
  | cons c rest => exact ⟨_, _, rfl⟩

/-- Replacing a list entry by a channel with the same score leaves the
per-channel score sequence unchanged. -/
theorem map_score_set :
    ∀ (l : List DcsChannel) (i : Nat) (b bumped : DcsChannel),
      l.get? i = some b → bumped.accumulated_score = b.accumulated_score →
      (l.set i bumped).map DcsChannel.accumulated_score =
        l.map DcsChannel.accumulated_score := by
  intro l
  induction l with
  | nil => intro i b bumped h _; simp at h
  | cons c t ih =>
      intro i b bumped h hsc
      cases i with
      | zero =>
          have hcb : c = b := by simpa using h
          subst hcb
          simp [List.set, hsc]
      | succ i =>
          have h2 : t.get? i = some b := by simpa using h
          simp [List.set, ih i b bumped h2 hsc]

/-! ## Sample-and-hold algorithm (`src/modules/dcs/algorithms/sample_and_hold.c`) -/

/-- `sample_hold_op_evaluate_channels` (`sample_and_hold.c:76-108`).
State threaded explicitly: `n` is `num_full_scans` before the call,
`cur` the current channel, `l` the scan list.  The result is
`(channel to switch to or none, new num_full_scans, new scan list)`;
the outer `none` marks the unconditional dereference of the
best-channel pointer when the scan list is empty (`best->metric.
rounds_as_best++` on a `NULL` pointer). -/
def sample_hold_op_evaluate_channels (rounds_for_eval threshold_percentage n : Nat)
    (cur : DcsChannel) (l : List DcsChannel) :
    Option (Option DcsChannel × Nat × List DcsChannel) :=
  match dcs_algo_get_channel_with_highest_score cur.frequency_khz l with
  | none => none
  | some p =>
      let best := { p.2 with rounds_as_best := p.2.rounds_as_best + 1 }
      let l1 := l.set p.1 best
      if (n + 1) % rounds_for_eval = 0 then
        if best.accumulated_score >
            dcs_algo_calculate_threshold cur.accumulated_score threshold_percentage then
          some (some best, n + 1, l1)
        else
          some (none, n + 1, dcs_algo_reset_accumulated_scores 0 l1)
      else
        some (none, n + 1, l1)

/-- **C3**: on a non-empty scan list (and with a positive
`rounds_for_eval`, without which the `%` in the source divides by zero,
and scores small enough that the `uint32_t` threshold product does not
wrap), every `sample_hold_op_evaluate_channels` call increments the best
channel's `rounds_as_best` and `num_full_scans`; when the incremented
`num_full_scans` is not a multiple of `rounds_for_eval` it returns none
and leaves every accumulated score unchanged; at a multiple it returns
the best channel iff `best.accumulated_score >
current.accumulated_score * (100 + threshold_percentage) / 100` in
integer arithmetic, and otherwise resets every scan-list score to 0 and
returns none. -/
theorem c3_sample_hold_evaluate (re pct n : Nat) (cur : DcsChannel)
    (l : List DcsChannel) (hl : l ≠ []) (_hre : 0 < re)
    (hov : cur.accumulated_score * (100 + pct) < 2 ^ 32) :
    ∃ i best,
      dcs_algo_get_channel_with_highest_score cur.frequency_khz l = some (i, best) ∧
      ((n + 1) % re ≠ 0 →
        sample_hold_op_evaluate_channels re pct n cur l =
          some (none, n + 1,
            l.set i { best with rounds_as_best := best.rounds_as_best + 1 }) ∧
        (l.set i { best with rounds_as_best := best.rounds_as_best + 1 }).map
            DcsChannel.accumulated_score = l.map DcsChannel.accumulated_score) ∧
      ((n + 1) % re = 0 →
        (best.accumulated_score > cur.accumulated_score * (100 + pct) / 100 →
          sample_hold_op_evaluate_channels re pct n cur l =
            some (some { best with rounds_as_best := best.rounds_as_best + 1 }, n + 1,
              l.set i { best with rounds_as_best := best.rounds_as_best + 1 })) ∧
        (¬ best.accumulated_score > cur.accumulated_score * (100 + pct) / 100 →
          sample_hold_op_evaluate_channels re pct n cur l =
            some (none, n + 1,
              dcs_algo_reset_accumulated_scores 0
                (l.set i { best with rounds_as_best := best.rounds_as_best + 1 })) ∧
          ∀ c ∈ dcs_algo_reset_accumulated_scores 0
              (l.set i { best with rounds_as_best := best.rounds_as_best + 1 }),
            c.accumulated_score = 0)) := by
  obtain ⟨i, best, hbest⟩ :=
    get_channel_with_highest_score_of_ne_nil cur.frequency_khz l hl
  have hthr : dcs_algo_calculate_threshold cur.accumulated_score pct =
      cur.accumulated_score * (100 + pct) / 100 := by
    unfold dcs_algo_calculate_threshold
    rw [Nat.mod_eq_of_lt hov]
  have hget : l.get? i = some best := get_channel_with_highest_score_get hbest
  have hunfold : sample_hold_op_evaluate_channels re pct n cur l =
      (if (n + 1) % re = 0 then
        if ({ best with rounds_as_best := best.rounds_as_best + 1 }).accumulated_score >
            dcs_algo_calculate_threshold cur.accumulated_score pct then
          some (some { best with rounds_as_best := best.rounds_as_best + 1 }, n + 1,
            l.set i { best with rounds_as_best := best.rounds_as_best + 1 })
        else
          some (none, n + 1, dcs_algo_reset_accumulated_scores 0
            (l.set i { best with rounds_as_best := best.rounds_as_best + 1 }))
      else
        some (none, n + 1,
          l.set i { best with rounds_as_best := best.rounds_as_best + 1 })) := by
    unfold sample_hold_op_evaluate_channels
    rw [hbest]
  refine ⟨i, best, hbest, ?_, ?_⟩
  · intro hmod
    constructor
    · rw [hunfold, if_neg hmod]
    · exact map_score_set l i best _ hget rfl
  · intro hmod
    constructor
    · intro hgt
      rw [hunfold, if_pos hmod, if_pos (by simpa [hthr] using hgt)]
    · intro hgt
      refine ⟨?_, fun c hc => mem_reset_accumulated_scores hc⟩
      rw [hunfold, if_pos hmod, if_neg (by simpa [hthr] using hgt)]

/-- Current channel of the spec's S3 scenario: frequency 900 kHz, score
300 after three rounds. -/
def c3CurrentChannel : DcsChannel := ⟨900, 2, 1, 300, 3, 0⟩

/-- Scan list of the S3 scenario: channel A (current, 300) and channel B
(330). -/
def c3WitnessList : List DcsChannel :=
  [⟨900, 2, 1, 300, 3, 0⟩, ⟨902, 2, 2, 330, 3, 0⟩]

/-- Witness for C3 at the spec's S3 scenario: `rounds_for_eval = 3`,
`threshold_percentage = 10`, third round (`num_full_scans` goes from 2
to 3), threshold `300·110/100 = 330`, `330 > 330` fails, so no switch is
returned and all scores reset to 0. -/
theorem c3_sample_hold_evaluate_witness :
    (c3WitnessList ≠ [] ∧ (0 : Nat) < 3 ∧
      c3CurrentChannel.accumulated_score * (100 + 10) < 2 ^ 32) ∧
    (∃ i best,
      dcs_algo_get_channel_with_highest_score c3CurrentChannel.frequency_khz
        c3WitnessList = some (i, best) ∧
      ((2 + 1) % 3 ≠ 0 →
        sample_hold_op_evaluate_channels 3 10 2 c3CurrentChannel c3WitnessList =
          some (none, 2 + 1,
            c3WitnessList.set i { best with rounds_as_best := best.rounds_as_best + 1 }) ∧
        (c3WitnessList.set i
            { best with rounds_as_best := best.rounds_as_best + 1 }).map
            DcsChannel.accumulated_score =
          c3WitnessList.map DcsChannel.accumulated_score) ∧
      ((2 + 1) % 3 = 0 →
        (best.accumulated_score >
            c3CurrentChannel.accumulated_score * (100 + 10) / 100 →
          sample_hold_op_evaluate_channels 3 10 2 c3CurrentChannel c3WitnessList =
            some (some { best with rounds_as_best := best.rounds_as_best + 1 }, 2 + 1,
              c3WitnessList.set i
                { best with rounds_as_best := best.rounds_as_best + 1 })) ∧
        (¬ best.accumulated_score >
            c3CurrentChannel.accumulated_score * (100 + 10) / 100 →
          sample_hold_op_evaluate_channels 3 10 2 c3CurrentChannel c3WitnessList =
            some (none, 2 + 1,
              dcs_algo_reset_accumulated_scores 0
                (c3WitnessList.set i
                  { best with rounds_as_best := best.rounds_as_best + 1 })) ∧
          ∀ c ∈ dcs_algo_reset_accumulated_scores 0
              (c3WitnessList.set i
                { best with rounds_as_best := best.rounds_as_best + 1 }),
            c.accumulated_score = 0))) ∧
    sample_hold_op_evaluate_channels 3 10 2 c3CurrentChannel c3WitnessList =
      some (none, 3, [⟨900, 2, 1, 0, 0, 0⟩, ⟨902, 2, 2, 0, 0, 1⟩]) :=
  ⟨⟨by decide, by decide, by decide⟩,
    c3_sample_hold_evaluate 3 10 2 c3CurrentChannel c3WitnessList
      (by decide) (by decide) (by decide),
    by decide⟩

/-! ## EWMA channel evaluation (`ewma.c:80-118`), needed for C10 -/

/-- `ewma_op_evaluate_channels` (`ewma.c:80-118`).  State threaded
explicitly: `rwb` is `rounds_with_a_better_channel` before the call.
The pointer comparison `candidate_chan == context->current_channel` is
modelled as identity of `(frequency_khz, bandwidth_mhz)`: channels are
distinct rows of `all_channels`, which the driver enumerates by that
pair.  The outer `none` marks the unconditional dereference of the
best-channel pointer (`candidate_chan->ch.channel_s1g` in the first
`LOG_INFO`) when the scan list is empty. -/
def ewma_op_evaluate_channels (threshold_percentage rounds_for_csa rwb : Nat)
    (cur : DcsChannel) (l : List DcsChannel) :
    Option (Option DcsChannel × Nat × List DcsChannel) :=
  match dcs_algo_get_channel_with_highest_score cur.frequency_khz l with
  | none => none
  | some p =>
      let threshold :=
        dcs_algo_calculate_threshold cur.accumulated_score threshold_percentage
      let rwb2 :=
        if p.2.frequency_khz = cur.frequency_khz ∧
            p.2.bandwidth_mhz = cur.bandwidth_mhz then 0
        else if p.2.accumulated_score > threshold then rwb + 1
        else rwb
      let bumped := { p.2 with rounds_as_best := p.2.rounds_as_best + 1 }
      let l1 := l.set p.1 bumped
      if rounds_for_csa ≠ 0 ∧ rounds_for_csa ≤ rwb2 then some (some bumped, rwb2, l1)
      else some (none, rwb2, l1)

/-! ## Scan thread round bookkeeping (`dcs.c:784-863`), needed for C10 -/

/-- The failed-measurement branch of `measurement_schedule_thread_fn`
(`dcs.c:824-839`): increment the retry counter; at the third consecutive
failure remove the cursor channel from the scan list and advance the
cursor (`none` = past the end of the list, which is the condition under
which the thread then calls `evaluate_channels`).  `cursor` is the index
of the failing channel; after removal the following channel keeps that
index in the shortened list. -/
def scan_failed_measurement_step (l : List DcsChannel) (cursor attempt_count : Nat) :
    List DcsChannel × Option Nat × Nat :=
  if 3 ≤ attempt_count + 1 then
    let nextCursor := if cursor + 1 < l.length then some cursor else none
    (l.eraseIdx cursor, nextCursor, 0)
  else
    (l, some cursor, attempt_count + 1)

/-- **C10**: `dcs_algo_get_channel_with_highest_score` returns null on
an empty scan list; both algorithms' `evaluate_channels` operations
dereference its result unconditionally (modelled as the undefined
`none` outcome on the empty list) and are total on every non-empty
list; and the scan thread's failure handling can empty the scan list —
a third consecutive failure on the last remaining channel removes it and
leaves the cursor past the end, which is exactly the state in which the
thread calls `evaluate_channels` at the end of the round. -/
theorem c10_empty_scan_list_evaluate_crash :
    (∀ cf, dcs_algo_get_channel_with_highest_score cf [] = none) ∧
    (∀ re pct n cur, sample_hold_op_evaluate_channels re pct n cur [] = none) ∧
    (∀ pct rcsa rwb cur, ewma_op_evaluate_channels pct rcsa rwb cur [] = none) ∧
    (∀ re pct n cur l, l ≠ [] →
      (sample_hold_op_evaluate_channels re pct n cur l).isSome = true) ∧
    (∀ pct rcsa rwb cur l, l ≠ [] →
      (ewma_op_evaluate_channels pct rcsa rwb cur l).isSome = true) ∧
    (∀ c : DcsChannel, scan_failed_measurement_step [c] 0 2 = ([], none, 0)) := by
  refine ⟨fun _ => rfl, fun _ _ _ _ => rfl, fun _ _ _ _ => rfl, ?_, ?_, fun _ => rfl⟩
  · intro re pct n cur l hl
    obtain ⟨i, b, h⟩ := get_channel_with_highest_score_of_ne_nil cur.frequency_khz l hl
    unfold sample_hold_op_evaluate_channels
    rw [h]
    dsimp only
    split_ifs <;> rfl
  · intro pct rcsa rwb cur l hl
    obtain ⟨i, b, h⟩ := get_channel_with_highest_score_of_ne_nil cur.frequency_khz l hl
    unfold ewma_op_evaluate_channels
    rw [h]
    dsimp only
    split_ifs <;> rfl

/-- Witness for C10: the totality conjuncts applied to a concrete
one-channel scan list. -/
theorem c10_empty_scan_list_evaluate_crash_witness :
    (([⟨900, 2, 1, 100, 0, 0⟩] : List DcsChannel) ≠ []) ∧
    (sample_hold_op_evaluate_channels 3 10 0 ⟨900, 2, 1, 100, 0, 0⟩
      [⟨900, 2, 1, 100, 0, 0⟩]).isSome = true ∧
    (ewma_op_evaluate_channels 10 3 0 ⟨900, 2, 1, 100, 0, 0⟩
      [⟨900, 2, 1, 100, 0, 0⟩]).isSome = true ∧
    scan_failed_measurement_step [⟨900, 2, 1, 100, 0, 0⟩] 0 2 = ([], none, 0) :=
  ⟨by decide,
    c10_empty_scan_list_evaluate_crash.2.2.2.1 3 10 0 ⟨900, 2, 1, 100, 0, 0⟩
      [⟨900, 2, 1, 100, 0, 0⟩] (by decide),
    c10_empty_scan_list_evaluate_crash.2.2.2.2.1 10 3 0 ⟨900, 2, 1, 100, 0, 0⟩
      [⟨900, 2, 1, 100, 0, 0⟩] (by decide),
    c10_empty_scan_list_evaluate_crash.2.2.2.2.2 ⟨900, 2, 1, 100, 0, 0⟩⟩

/-! ## Channel switch (`dcs.c:509-593`) -/

/-- CSA synchronisation state (`struct dcs` → `csa` in `dcs.h`): the
`in_progress` flag and the last-notified 5 GHz frequency.  The mutex and
condvar are represented by the sequential ordering of the model. -/
structure CsaState where
  /-- `csa.in_progress` -/
  in_progress : Bool
  /-- `csa.freq_5g` -/
  freq_5g : Nat
  deriving DecidableEq, Repr

/-- State effect of `ecsa_done_callback` (`dcs.c:434-501`) on the CSA
state: record the notified `WIPHY_FREQ` and signal the condvar only when
a switch is in progress (second component = signalled).  When no switch
is in progress the recorded frequency is left behind. -/
def ecsa_done_callback (st : CsaState) (notified_freq : Nat) : CsaState × Bool :=
  ({ st with freq_5g := notified_freq }, st.in_progress)

/-- One call to `do_channel_switch` (`dcs.c:509-593`), sequentialised.
Environment inputs: `csa_enabled` — `config.csa_enabled`;
`respFirstKey` — the string key of the first sibling of the parsed
`CHAN_SWITCH` response, `none` when `mmsm_request` returned NULL;
`timed_out` — whether `pthread_cond_timedwait` on the CSA condvar hit
its timeout; `notified_freq` — the `WIPHY_FREQ` the callback recorded in
`csa.freq_5g` before signalling; `current_5g` — `current_5g_freq` after
the callback's `update_current_channel`.  Result:
`(ret, final CSA state, whether the CSA condvar was waited on)`.
Return codes are negated Linux errno values:
`-ENODATA = -61`, `-EBADR = -53`, `-ETIMEDOUT = -110`, `-EPROTO = -71`. -/
def do_channel_switch (csa_enabled : Bool) (st : CsaState)
    (respFirstKey : Option String) (timed_out : Bool)
    (notified_freq current_5g : Nat) : Int × CsaState × Bool :=
  match csa_enabled with
  | false => (0, st, false)     -- `if (!csa_enabled) return ret;` — no state touched
  | true =>
    match respFirstKey with
    | none => (-61, ⟨false, 0⟩, false)
    | some k =>
      if k = "OK" then
        -- `csa.in_progress = true;` then `pthread_cond_timedwait`
        match timed_out with
        | true => (-110, ⟨false, 0⟩, true)
        | false =>
          if notified_freq = current_5g then (0, ⟨false, 0⟩, true)
          else (-71, ⟨false, 0⟩, true)
      else (-53, ⟨false, 0⟩, false)  -- `ECSA Failed` protocol error

/-- Counterexample to C4 as stated: with CSA disabled by config,
`do_channel_switch` returns without touching the CSA state, so a
frequency recorded by a spurious `CH_SWITCH_NOTIFY` (which
`ecsa_done_callback` leaves behind when no switch is in progress) is
not cleared to 0 on that exit path. -/
theorem c4_do_channel_switch_counterexample :
    ecsa_done_callback ⟨false, 0⟩ 42 = (⟨false, 42⟩, false) ∧
    do_channel_switch false ⟨false, 42⟩ (some "OK") false 0 0 = (0, ⟨false, 42⟩, false) ∧
    (do_channel_switch false ⟨false, 42⟩ (some "OK") false 0 0).2.1.freq_5g ≠ 0 := by
  refine ⟨rfl, rfl, ?_⟩
  decide

/-- **C4** (amended to every exit path taken with CSA enabled): when a
response arrives and its first sibling key is not the literal `"OK"`,
the call fails with the protocol error `-EBADR` and never waits on the
CSA condvar; on every exit path with CSA enabled the returned state has
`in_progress = false` and `freq_5g = 0`; and the condvar is waited on —
i.e. `in_progress` becomes true — only after the switch request was
submitted and acknowledged with `"OK"`.  (With CSA disabled the
function returns success immediately and leaves the CSA state
untouched; see the counterexample.) -/
theorem c4_do_channel_switch_exits (st : CsaState) (resp : Option String)
    (timed_out : Bool) (nf c5 : Nat) :
    (∀ k, resp = some k → k ≠ "OK" →
      do_channel_switch true st resp timed_out nf c5 = (-53, ⟨false, 0⟩, false)) ∧
    (do_channel_switch true st resp timed_out nf c5).2.1.in_progress = false ∧
    (do_channel_switch true st resp timed_out nf c5).2.1.freq_5g = 0 ∧
    ((do_channel_switch true st resp timed_out nf c5).2.2 = true →
      resp = some "OK") := by
  cases resp with
  | none =>
      refine ⟨?_, rfl, rfl, ?_⟩
      · intro k hk
        exact Option.noConfusion hk
      · intro h
        exact absurd h Bool.false_ne_true
  | some k =>
      by_cases hk : k = "OK"
      · subst hk
        refine ⟨?_, ?_, ?_, fun _ => rfl⟩
        · intro k2 hk2 hne
          injection hk2 with h
          exact absurd h.symm hne
        · cases timed_out with
          | true => rfl
          | false => by_cases h : nf = c5 <;> simp [do_channel_switch, h]
        · cases timed_out with
          | true => rfl
          | false => by_cases h : nf = c5 <;> simp [do_channel_switch, h]
      · have hred : do_channel_switch true st (some k) timed_out nf c5 =
            (-53, ⟨false, 0⟩, false) := by
          simp [do_channel_switch, hk]
        refine ⟨fun _ _ _ => hred, by rw [hred], by rw [hred], ?_⟩
        rw [hred]
        exact fun h => absurd h (by decide)

/-- Witness for C4: a rejected `CHAN_SWITCH` (first response key
`"FAIL"`) with CSA enabled fails with `-EBADR`, does not wait on the
condvar, and clears the CSA state. -/
theorem c4_do_channel_switch_exits_witness :
    do_channel_switch true ⟨false, 0⟩ (some "FAIL") false 0 0 =
      (-53, ⟨false, 0⟩, false) ∧
    (do_channel_switch true ⟨false, 0⟩ (some "FAIL") false 0 0).2.1.in_progress = false ∧
    (do_channel_switch true ⟨false, 0⟩ (some "FAIL") false 0 0).2.1.freq_5g = 0 ∧
    ((do_channel_switch true ⟨false, 0⟩ (some "FAIL") false 0 0).2.2 = true →
      (some "FAIL" : Option String) = some "OK") :=
  ⟨(c4_do_channel_switch_exits ⟨false, 0⟩ (some "FAIL") false 0 0).1 "FAIL" rfl
      (by decide),
    (c4_do_channel_switch_exits ⟨false, 0⟩ (some "FAIL") false 0 0).2.1,
    (c4_do_channel_switch_exits ⟨false, 0⟩ (some "FAIL") false 0 0).2.2.1,
    (c4_do_channel_switch_exits ⟨false, 0⟩ (some "FAIL") false 0 0).2.2.2⟩

/-! ## Replay measurement source (`src/modules/dcs/dcs_test.c`) -/

/-- A per-frequency sample queue
(`struct channel_measurement_list_per_ch`).  Queues are created
non-empty (`add_channel_measurement_item`) and removed as soon as their
last sample is popped, so non-emptiness is structural: the head sample
is stored apart from the remaining samples.  A measurement is identified
by its metric value. -/
structure ReplayPerCh where
  frequency_khz : Nat
  head_sample : Nat
  rest_samples : List Nat
  deriving DecidableEq, Repr

/-- The `list_for_each_entry` loop of `pop_channel_measurement`
(`dcs_test.c:106-127`): find the first queue for the requested
frequency, pop its head, and remove the queue once empty. -/
def popLoop (f : Nat) : List ReplayPerCh → Option Nat × List ReplayPerCh
  | [] => (none, [])
  | q :: rest =>
      if q.frequency_khz = f then
        match q.rest_samples with
        | [] => (some q.head_sample, rest)
        | r :: rs => (some q.head_sample, ⟨q.frequency_khz, r, rs⟩ :: rest)
      else
        let p := popLoop f rest
        (p.1, q :: p.2)

/-- `pop_channel_measurement` (`dcs_test.c:99-133`): run the loop and
then, when every queue is empty (the outer list is empty), call
`mmsm_halt()`.  The third component records whether the global halt
condition was signalled by this call. -/
def pop_channel_measurement (st : List ReplayPerCh) (f : Nat) :
    Option Nat × List ReplayPerCh × Bool :=
  let p := popLoop f st
  (p.1, p.2, p.2.isEmpty)

/-- Total number of measurements held across all per-frequency queues. -/
def replayTotal (st : List ReplayPerCh) : Nat :=
  (st.map fun q => q.rest_samples.length + 1).sum

theorem replayTotal_eq_zero (st : List ReplayPerCh) :
    replayTotal st = 0 ↔ st = [] := by
  cases st with
  | nil => simp [replayTotal]
  | cons q t =>
      simp only [replayTotal, List.map_cons, List.sum_cons]
      constructor
      · intro h
        omega
      · intro h
        exact absurd h (List.cons_ne_nil q t)

theorem popLoop_found (f : Nat) :
    ∀ (st : List ReplayPerCh) (e : ReplayPerCh),
      st.find? (fun q => q.frequency_khz == f) = some e →
      (popLoop f st).1 = some e.head_sample ∧
      replayTotal (popLoop f st).2 + 1 = replayTotal st := by
  intro st
  induction st with
  | nil => intro e h; simp at h
  | cons q t ih =>
      intro e h
      obtain ⟨qf, qh, qr⟩ := q
      by_cases hq : qf = f
      · rw [List.find?_cons_of_pos _ (by simpa using hq)] at h
        injection h with h
        subst h
        rw [popLoop, if_pos hq]
        cases qr with
        | nil =>
            refine ⟨rfl, ?_⟩
            simp only [replayTotal, List.map_cons, List.sum_cons, List.length_nil]
            omega
        | cons r rs =>
            refine ⟨rfl, ?_⟩
            simp only [replayTotal, List.map_cons, List.sum_cons, List.length_cons]
            omega
      · rw [List.find?_cons_of_neg _ (by simpa using hq)] at h
        obtain ⟨h1, h2⟩ := ih e h
        rw [popLoop, if_neg hq]
        refine ⟨h1, ?_⟩
        simp only [replayTotal, List.map_cons, List.sum_cons] at h2 ⊢
        omega

theorem popLoop_not_found (f : Nat) :
    ∀ (st : List ReplayPerCh),
      st.find? (fun q => q.frequency_khz == f) = none →
      popLoop f st = (none, st) := by
  intro st
  induction st with
  | nil => intro _; rfl
  | cons q t ih =>
      intro h
      rw [List.find?_cons] at h
      by_cases hq : q.frequency_khz = f
      · simp [hq] at h
      · rw [popLoop, if_neg hq]
        have h2 : t.find? (fun q => q.frequency_khz == f) = none := by
          cases hfind : (q.frequency_khz == f) with
          | true => exact absurd (by simpa using hfind) hq
          | false =>
              rw [hfind] at h
              exact h
        rw [ih h2]

/-- Counterexample to C5 as stated: with exactly `N = 1` measurement in
total, the first request (attempt `N`, not `N + 1`) both pops and
returns that last measurement and signals the global halt condition in
the same call — the halt does not wait for a further request against
empty queues. -/
theorem c5_replay_halt_counterexample :
    replayTotal [⟨900, 7, []⟩] = 1 ∧
    pop_channel_measurement [⟨900, 7, []⟩] 900 = (some 7, [], true) := by
  exact ⟨rfl, rfl⟩

/-- **C5** (amended): each request whose frequency has a queue pops and
returns that queue's head and decreases the total measurement count by
one; requests for frequencies with no queue return nothing and leave the
state unchanged; and the global halt condition is signalled exactly when
every queue is empty at the end of the call — that is, already during
the attempt that returns the N-th (last) measurement, and again on every
later attempt. -/
theorem c5_replay_pop (st : List ReplayPerCh) (f : Nat) :
    ((pop_channel_measurement st f).2.2 = true ↔
      replayTotal (pop_channel_measurement st f).2.1 = 0) ∧
    (∀ e, st.find? (fun q => q.frequency_khz == f) = some e →
      (pop_channel_measurement st f).1 = some e.head_sample ∧
      replayTotal (pop_channel_measurement st f).2.1 + 1 = replayTotal st) ∧
    (st.find? (fun q => q.frequency_khz == f) = none →
      pop_channel_measurement st f = (none, st, st.isEmpty)) := by
  refine ⟨?_, ?_, ?_⟩
  · show (popLoop f st).2.isEmpty = true ↔ replayTotal (popLoop f st).2 = 0
    rw [List.isEmpty_iff, replayTotal_eq_zero]
  · intro e h
    exact popLoop_found f st e h
  · intro h
    show ((popLoop f st).1, (popLoop f st).2, (popLoop f st).2.isEmpty) = _
    rw [popLoop_not_found f st h]

/-- Witness for C5: a two-queue state; popping frequency 900 returns the
head of its queue, leaves two measurements, and does not signal the
halt; the branch hypotheses are discharged at the concrete input. -/
theorem c5_replay_pop_witness :
    (([⟨900, 7, [8]⟩, ⟨902, 9, []⟩] : List ReplayPerCh).find?
        (fun q => q.frequency_khz == 900) = some ⟨900, 7, [8]⟩) ∧
    (pop_channel_measurement [⟨900, 7, [8]⟩, ⟨902, 9, []⟩] 900).1 = some 7 ∧
    replayTotal (pop_channel_measurement [⟨900, 7, [8]⟩, ⟨902, 9, []⟩] 900).2.1 + 1 =
      replayTotal [⟨900, 7, [8]⟩, ⟨902, 9, []⟩] ∧
    ((pop_channel_measurement [⟨900, 7, [8]⟩, ⟨902, 9, []⟩] 900).2.2 = true ↔
      replayTotal (pop_channel_measurement [⟨900, 7, [8]⟩, ⟨902, 9, []⟩] 900).2.1 = 0) :=
  ⟨by decide,
    ((c5_replay_pop [⟨900, 7, [8]⟩, ⟨902, 9, []⟩] 900).2.1 ⟨900, 7, [8]⟩ (by decide)).1,
    ((c5_replay_pop [⟨900, 7, [8]⟩, ⟨902, 9, []⟩] 900).2.1 ⟨900, 7, [8]⟩ (by decide)).2,
    (c5_replay_pop [⟨900, 7, [8]⟩, ⟨902, 9, []⟩] 900).1⟩

/-! ## Generic-netlink argument processing (`src/backend/nl80211.c:499-572`) -/

/-- Netlink attribute policy type tags (`enum` in `linux/netlink.h`), as
consumed by the `switch` in `backend_nl80211_process_request_args`. -/
def NLA_U8 : Nat := 1
def NLA_U16 : Nat := 2
def NLA_U32 : Nat := 3
def NLA_U64 : Nat := 4
def NLA_STRING : Nat := 5
def NLA_FLAG : Nat := 6
def NLA_BINARY : Nat := 11

/-- A value of the variadic argument stream: `word` for the integers
read with `va_arg(args, int)`, `str` for a `char *`, `bin` for the
length-prefixed byte pointer of `NLA_BINARY`. -/
inductive NlPayload where
  | word (n : Nat)
  | str (s : List Char)
  | bin (bytes : List Nat)
  deriving DecidableEq, Repr

/-- One `<attr-id> <type-tag> <value…>` group of the argument vector. -/
structure NlAttrArg where
  attr_id : Nat
  nla_type : Nat
  payload : NlPayload
  deriving DecidableEq, Repr

/-- A node of the request tree: `{key = u32, value = byte buffer}`. -/
structure MmsmNode where
  key : Nat
  value : List Nat
  deriving DecidableEq, Repr

/-- Little-endian byte image of `n` truncated to `width` bytes — the
`memcpy` of `PACK_VA_ARG` on a little-endian host. -/
def le_bytes (width n : Nat) : List Nat :=
  (List.range width).map fun i => n / 256 ^ i % 256

/-- The `switch (type)` of `backend_nl80211_process_request_args`
(`nl80211.c:533-567`): build one attribute node, or fail.  `none` covers
the `case NLA_FLAG: default:` branch — the source prints
"Arg type %d not supported", frees the tree and returns NULL — and a
payload that cannot be read at the switch's type (undefined `va_arg`
behaviour, unreachable for well-formed calls). -/
def processAttr (a : NlAttrArg) : Option MmsmNode :=
  if a.nla_type = NLA_U8 then
    match a.payload with
    | .word n => some ⟨a.attr_id, le_bytes 1 n⟩
    | _ => none
  else if a.nla_type = NLA_U16 then
    match a.payload with
    | .word n => some ⟨a.attr_id, le_bytes 2 n⟩
    | _ => none
  else if a.nla_type = NLA_U32 then
    match a.payload with
    | .word n => some ⟨a.attr_id, le_bytes 4 n⟩
    | _ => none
  else if a.nla_type = NLA_U64 then
    match a.payload with
    | .word n => some ⟨a.attr_id, le_bytes 8 n⟩
    | _ => none
  else if a.nla_type = NLA_STRING then
    match a.payload with
    | .str s => some ⟨a.attr_id, s.map Char.toNat ++ [0]⟩
    | _ => none
  else if a.nla_type = NLA_BINARY then
    match a.payload with
    | .bin bs => some ⟨a.attr_id, bs⟩
    | _ => none
  else
    none

/-- The `while (attr_id != -1)` loop of
`backend_nl80211_process_request_args`: process each attribute in order;
the first unsupported tag aborts with NULL. -/
def processArgsLoop : List NlAttrArg → Option (List MmsmNode)
  | [] => some []
  | a :: rest =>
      match processAttr a with
      | none => none
      | some node =>
          match processArgsLoop rest with
          | none => none
          | some nodes => some (node :: nodes)

/-- `backend_nl80211_process_request_args` (`nl80211.c:512-572`): the
head node `{key = cmd-id, value = 16-bit flags}` followed by one sibling
per attribute argument; NULL as soon as one attribute fails. -/
def backend_nl80211_process_request_args (cmd flags : Nat) (args : List NlAttrArg) :
    Option (List MmsmNode) :=
  match processArgsLoop args with
  | none => none
  | some nodes => some (⟨cmd % 2 ^ 32, le_bytes 2 (flags % 2 ^ 16)⟩ :: nodes)

/-- Payload shape demanded by each supported tag: the well-formedness of
the `va_list` that the C caller must guarantee. -/
def wellTypedArg (a : NlAttrArg) : Bool :=
  if a.nla_type = NLA_STRING then
    match a.payload with
    | .str _ => true
    | _ => false
  else if a.nla_type = NLA_BINARY then
    match a.payload with
    | .bin _ => true
    | _ => false
  else if a.nla_type = NLA_U8 ∨ a.nla_type = NLA_U16 ∨ a.nla_type = NLA_U32 ∨
      a.nla_type = NLA_U64 then
    match a.payload with
    | .word _ => true
    | _ => false
  else
    true

/-- The tags the source's `switch` actually accepts: the claim's set
minus `NLA_FLAG`. -/
def supportedTag (t : Nat) : Prop :=
  t = NLA_U8 ∨ t = NLA_U16 ∨ t = NLA_U32 ∨ t = NLA_U64 ∨ t = NLA_STRING ∨
    t = NLA_BINARY

theorem processAttr_eq_none_iff (a : NlAttrArg) (hw : wellTypedArg a = true) :
    processAttr a = none ↔ ¬ supportedTag a.nla_type := by
  obtain ⟨id, t, p⟩ := a
  simp only [wellTypedArg] at hw
  unfold processAttr supportedTag
  dsimp only at hw ⊢
  split_ifs at hw ⊢ with h1 h2 h3 h4 h5 h6 <;>
    cases p <;>
    simp_all [NLA_U8, NLA_U16, NLA_U32, NLA_U64, NLA_STRING, NLA_FLAG, NLA_BINARY]

theorem processArgsLoop_eq_none_iff :
    ∀ (args : List NlAttrArg), (∀ a ∈ args, wellTypedArg a = true) →
      (processArgsLoop args = none ↔ ∃ a ∈ args, ¬ supportedTag a.nla_type) := by
  intro args
  induction args with
  | nil => intro _; simp [processArgsLoop]
  | cons a rest ih =>
      intro hw
      have ha := hw a (List.mem_cons_self a rest)
      have hrest := ih fun x hx => hw x (List.mem_cons_of_mem a hx)
      rw [processArgsLoop]
      cases hpa : processAttr a with
      | none =>
          simp only [true_iff]
          exact ⟨a, List.mem_cons_self a rest, (processAttr_eq_none_iff a ha).mp hpa⟩
      | some node =>
          have hsup : supportedTag a.nla_type := by
            by_contra hns
            rw [(processAttr_eq_none_iff a ha).mpr hns] at hpa
            cases hpa
          cases hloop : processArgsLoop rest with
          | none =>
              simp only [true_iff]
              obtain ⟨x, hx, hxs⟩ := (hrest).mp hloop
              exact ⟨x, List.mem_cons_of_mem a hx, hxs⟩
          | some nodes =>
              simp only [reduceCtorEq, false_iff]
              rintro ⟨x, hx, hxs⟩
              rcases List.mem_cons.mp hx with h | h
              · subst h; exact hxs hsup
              · have h2 : processArgsLoop rest = none := (hrest).mpr ⟨x, h, hxs⟩
                rw [h2] at hloop
                cases hloop

/-- Counterexample to C6 as stated: the source's `switch` places
`case NLA_FLAG:` directly above `default:`, so a well-formed `FLAG`
argument — one of the claim's seven accepted tags — produces the
argument-processing failure (NULL request tree). -/
theorem c6_flag_rejected_counterexample :
    NLA_FLAG = 6 ∧
    wellTypedArg ⟨1, NLA_FLAG, NlPayload.word 0⟩ = true ∧
    backend_nl80211_process_request_args 0 0 [⟨1, NLA_FLAG, NlPayload.word 0⟩] =
      none := by
  exact ⟨rfl, rfl, rfl⟩

/-- **C6** (amended): on a well-formed argument vector the processor
accepts exactly the six tags `{U8, U16, U32, U64, STRING, BINARY}`,
building the head `{cmd, flags}` node followed by one attribute node per
argument, and produces the argument-processing failure (a null request
tree) exactly when some tag lies outside this set — `NLA_FLAG`
included. -/
theorem c6_process_request_args (cmd flags : Nat) (args : List NlAttrArg)
    (hw : ∀ a ∈ args, wellTypedArg a = true) :
    (backend_nl80211_process_request_args cmd flags args = none ↔
      ∃ a ∈ args, ¬ supportedTag a.nla_type) ∧
    (∀ nodes, backend_nl80211_process_request_args cmd flags args = some nodes →
      ∃ tail, processArgsLoop args = some tail ∧
        nodes = ⟨cmd % 2 ^ 32, le_bytes 2 (flags % 2 ^ 16)⟩ :: tail ∧
        tail.length = args.length) := by
  constructor
  · unfold backend_nl80211_process_request_args
    cases hloop : processArgsLoop args with
    | none =>
        simp only [true_iff]
        exact (processArgsLoop_eq_none_iff args hw).mp hloop
    | some nodes =>
        simp only [reduceCtorEq, false_iff]
        intro hex
        have h2 := (processArgsLoop_eq_none_iff args hw).mpr hex
        rw [h2] at hloop
        cases hloop
  · intro nodes hn
    unfold backend_nl80211_process_request_args at hn
    cases hloop : processArgsLoop args with
    | none => rw [hloop] at hn; cases hn
    | some tail =>
        rw [hloop] at hn
        injection hn with hn
        refine ⟨tail, rfl, hn.symm, ?_⟩
        clear hn
        induction args generalizing tail with
        | nil => cases hloop; rfl
        | cons a rest ih =>
            rw [processArgsLoop] at hloop
            cases hpa : processAttr a with
            | none => rw [hpa] at hloop; cases hloop
            | some node =>
                rw [hpa] at hloop
                cases hrest : processArgsLoop rest with
                | none => rw [hrest] at hloop; cases hloop
                | some nodes2 =>
                    rw [hrest] at hloop
                    injection hloop with hloop
                    subst hloop
                    have hw2 : ∀ x ∈ rest, wellTypedArg x = true :=
                      fun x hx => hw x (List.mem_cons_of_mem a hx)
                    simp [ih hw2 nodes2 hrest]

/-- Witness for C6: a vector with one attribute of each supported tag is
accepted, and the conclusions are instantiated at that vector. -/
theorem c6_process_request_args_witness :
    (∀ a ∈ ([⟨1, NLA_U8, NlPayload.word 7⟩, ⟨2, NLA_U16, NlPayload.word 258⟩,
        ⟨3, NLA_U32, NlPayload.word 70000⟩, ⟨4, NLA_U64, NlPayload.word 9⟩,
        ⟨5, NLA_STRING, NlPayload.str ['h', 'i']⟩,
        ⟨6, NLA_BINARY, NlPayload.bin [1, 2, 3]⟩] : List NlAttrArg),
      wellTypedArg a = true) ∧
    ((backend_nl80211_process_request_args 19 1 [⟨1, NLA_U8, NlPayload.word 7⟩,
        ⟨2, NLA_U16, NlPayload.word 258⟩, ⟨3, NLA_U32, NlPayload.word 70000⟩,
        ⟨4, NLA_U64, NlPayload.word 9⟩, ⟨5, NLA_STRING, NlPayload.str ['h', 'i']⟩,
        ⟨6, NLA_BINARY, NlPayload.bin [1, 2, 3]⟩] = none ↔
      ∃ a ∈ ([⟨1, NLA_U8, NlPayload.word 7⟩, ⟨2, NLA_U16, NlPayload.word 258⟩,
        ⟨3, NLA_U32, NlPayload.word 70000⟩, ⟨4, NLA_U64, NlPayload.word 9⟩,
        ⟨5, NLA_STRING, NlPayload.str ['h', 'i']⟩,
        ⟨6, NLA_BINARY, NlPayload.bin [1, 2, 3]⟩] : List NlAttrArg),
        ¬ supportedTag a.nla_type) ∧
    (∀ nodes, backend_nl80211_process_request_args 19 1 [⟨1, NLA_U8, NlPayload.word 7⟩,
        ⟨2, NLA_U16, NlPayload.word 258⟩, ⟨3, NLA_U32, NlPayload.word 70000⟩,
        ⟨4, NLA_U64, NlPayload.word 9⟩, ⟨5, NLA_STRING, NlPayload.str ['h', 'i']⟩,
        ⟨6, NLA_BINARY, NlPayload.bin [1, 2, 3]⟩] = some nodes →
      ∃ tail, processArgsLoop [⟨1, NLA_U8, NlPayload.word 7⟩,
          ⟨2, NLA_U16, NlPayload.word 258⟩, ⟨3, NLA_U32, NlPayload.word 70000⟩,
          ⟨4, NLA_U64, NlPayload.word 9⟩, ⟨5, NLA_STRING, NlPayload.str ['h', 'i']⟩,
          ⟨6, NLA_BINARY, NlPayload.bin [1, 2, 3]⟩] = some tail ∧
        nodes = ⟨19 % 2 ^ 32, le_bytes 2 (1 % 2 ^ 16)⟩ :: tail ∧
        tail.length = ([⟨1, NLA_U8, NlPayload.word 7⟩, ⟨2, NLA_U16, NlPayload.word 258⟩,
          ⟨3, NLA_U32, NlPayload.word 70000⟩, ⟨4, NLA_U64, NlPayload.word 9⟩,
          ⟨5, NLA_STRING, NlPayload.str ['h', 'i']⟩,
          ⟨6, NLA_BINARY, NlPayload.bin [1, 2, 3]⟩] : List NlAttrArg).length)) :=
  ⟨by decide,
    c6_process_request_args 19 1 [⟨1, NLA_U8, NlPayload.word 7⟩,
      ⟨2, NLA_U16, NlPayload.word 258⟩, ⟨3, NLA_U32, NlPayload.word 70000⟩,
      ⟨4, NLA_U64, NlPayload.word 9⟩, ⟨5, NLA_STRING, NlPayload.str ['h', 'i']⟩,
      ⟨6, NLA_BINARY, NlPayload.bin [1, 2, 3]⟩] (by decide)⟩

/-! ## Primary channel arithmetic (`dcs.c:374-425`) -/

/-- `MHZ_TO_KHZ` (`utils.h`). -/
def MHZ_TO_KHZ (f : Nat) : Nat := f * 1000

/-- `calculate_new_prim_ch_center_freq` (`dcs.c:382-407`).  `w` is
`current_primary_ch_width`, `i` is `current_prim_1mhz_ch_index`.
`none` stands for the two `MMSM_ASSERT` aborts: a primary width other
than 1 or 2 MHz, or a computed centre at or above the top of the
operating channel.  Frequencies are kHz values far below `2 ^ 32`, so
the `uint32_t` arithmetic is exact; the bottom-frequency subtraction
requires `bw·1000/2 ≤ freq`, true of every real channel. -/
def calculate_new_prim_ch_center_freq (w i : Nat) (channel : DcsChannel) : Option Nat :=
  let bottom_freq := channel.frequency_khz - MHZ_TO_KHZ channel.bandwidth_mhz / 2
  let top_freq := channel.frequency_khz + MHZ_TO_KHZ channel.bandwidth_mhz / 2
  if w = 1 then
    if bottom_freq + MHZ_TO_KHZ i + 500 < top_freq then
      some (bottom_freq + MHZ_TO_KHZ i + 500)
    else none
  else if w = 2 then
    if bottom_freq + MHZ_TO_KHZ (i / 2) * 2 + 1000 < top_freq then
      some (bottom_freq + MHZ_TO_KHZ (i / 2) * 2 + 1000)
    else none
  else
    none

/-- `calculate_sec_channel_offset` (`dcs.c:417-425`): 0 for a 1 MHz
target channel, else `+1` when the primary 1 MHz index is even
(`(idx & 0x1) == 0`) and `-1` when odd. -/
def calculate_sec_channel_offset (i : Nat) (channel : DcsChannel) : Int :=
  if channel.bandwidth_mhz = 1 then 0
  else if i % 2 = 0 then 1 else -1

/-- **C7**: with `bottom(c) = c.frequency_khz − c.bandwidth_mhz·1000/2`,
the primary centre is `bottom(c) + i·1000 + 500` kHz at primary width
1 MHz and `bottom(c) + ⌊i/2⌋·2000 + 1000` kHz at width 2 MHz (the
in-range assertions hold for every valid index `i < bw`, with even `bw`
at width 2); and the secondary channel offset is 0 for a 1 MHz target,
`+1` for even `i` and `−1` for odd `i`. -/
theorem c7_primary_center_and_sec_offset (c : DcsChannel) (i : Nat)
    (hb : c.bandwidth_mhz * 1000 / 2 ≤ c.frequency_khz)
    (hi : i < c.bandwidth_mhz) :
    calculate_new_prim_ch_center_freq 1 i c =
      some (c.frequency_khz - c.bandwidth_mhz * 1000 / 2 + i * 1000 + 500) ∧
    (c.bandwidth_mhz % 2 = 0 →
      calculate_new_prim_ch_center_freq 2 i c =
        some (c.frequency_khz - c.bandwidth_mhz * 1000 / 2 + i / 2 * 2000 + 1000)) ∧
    (c.bandwidth_mhz = 1 → calculate_sec_channel_offset i c = 0) ∧
    (c.bandwidth_mhz ≠ 1 → i % 2 = 0 → calculate_sec_channel_offset i c = 1) ∧
    (c.bandwidth_mhz ≠ 1 → i % 2 = 1 → calculate_sec_channel_offset i c = -1) := by
  refine ⟨?_, ?_, ?_, ?_, ?_⟩
  · simp only [calculate_new_prim_ch_center_freq, MHZ_TO_KHZ]
    split_ifs with h1 h2 <;> first | rfl | (exfalso; omega)
  · intro heven
    simp only [calculate_new_prim_ch_center_freq, MHZ_TO_KHZ]
    split_ifs with h1 h2 h3 <;>
      first
        | (exact congrArg some (by omega))
        | (exfalso; omega)
  · intro h1
    simp only [calculate_sec_channel_offset]
    rw [if_pos h1]
  · intro h1 h2
    simp only [calculate_sec_channel_offset]
    rw [if_neg h1, if_pos h2]
  · intro h1 h2
    simp only [calculate_sec_channel_offset]
    rw [if_neg h1, if_neg (by omega)]

/-- Witness for C7 at the spec's S4 scenario: operating channel
9200000 kHz at 4 MHz, primary width 2 MHz, index 2 → primary centre
9201000 kHz, secondary offset `+1`. -/
theorem c7_primary_center_and_sec_offset_witness :
    ((⟨9200000, 4, 44, 0, 0, 0⟩ : DcsChannel).bandwidth_mhz * 1000 / 2 ≤
        (⟨9200000, 4, 44, 0, 0, 0⟩ : DcsChannel).frequency_khz ∧
      2 < (⟨9200000, 4, 44, 0, 0, 0⟩ : DcsChannel).bandwidth_mhz) ∧
    ((⟨9200000, 4, 44, 0, 0, 0⟩ : DcsChannel).bandwidth_mhz % 2 = 0 →
      calculate_new_prim_ch_center_freq 2 2 ⟨9200000, 4, 44, 0, 0, 0⟩ =
        some ((⟨9200000, 4, 44, 0, 0, 0⟩ : DcsChannel).frequency_khz -
          (⟨9200000, 4, 44, 0, 0, 0⟩ : DcsChannel).bandwidth_mhz * 1000 / 2 +
          2 / 2 * 2000 + 1000)) ∧
    calculate_new_prim_ch_center_freq 2 2 ⟨9200000, 4, 44, 0, 0, 0⟩ = some 9201000 ∧
    calculate_sec_channel_offset 2 ⟨9200000, 4, 44, 0, 0, 0⟩ = 1 :=
  ⟨⟨by decide, by decide⟩,
    (c7_primary_center_and_sec_offset ⟨9200000, 4, 44, 0, 0, 0⟩ 2
      (by decide) (by decide)).2.1,
    by decide, by decide⟩

/-! ## AP-ctrl response parsing (`src/backend/hostapd_ctrl.c:81-145`) -/

/-- Membership of a character in a `strtok_r` delimiter set. -/
def isDelim (delims : List Char) (c : Char) : Bool := delims.contains c

/-- One `strtok_r` step: skip leading delimiters; with nothing left
there is no token (`strtok_r` returns NULL); otherwise the token runs to
the next delimiter, which is consumed (the C overwrites it with NUL and
leaves the save pointer just past it; a token that runs to the end of
the string leaves an empty remainder). -/
def strtokFirst (delims : List Char) (s : List Char) :
    Option (List Char × List Char) :=
  match s.dropWhile (fun c => isDelim delims c) with
  | [] => none
  | a :: t =>
      let tok := (a :: t).takeWhile fun c => !(isDelim delims c)
      some (tok, ((a :: t).drop tok.length).tail)

/-- `parse_item` (`hostapd_ctrl.c:81-107`).  The first token is cut at
`'='` or `' '`; a leading `<N>` tag is stripped from it; the value is
the next token cut at `'='` alone.  `none` stands for the C's parse
failure (no token at all: `return 1`) and for the undefined behaviour
of the tag-stripping loop when a token starts with `'<'` but holds no
`'>'` (`while (*token != '>') token++;` runs off the buffer). -/
def parse_item (line : List Char) : Option (List Char × Option (List Char)) :=
  match strtokFirst ['=', ' '] line with
  | none => none
  | some (tok, rest) =>
      let keyTagged : Option (List Char) :=
        if tok.head? = some '<' then
          if tok.any (fun c => c == '>') then
            some ((tok.dropWhile fun c => c != '>').tail)
          else none
        else some tok
      match keyTagged with
      | none => none
      | some key =>
          match strtokFirst ['='] rest with
          | none => some (key, none)
          | some (vtok, _) => some (key, some vtok)

/-- The line loop of `parse_output` (`hostapd_ctrl.c:117-142`): one
sibling per line; a failing line frees everything and yields NULL. -/
def parse_lines : List (List Char) → Option (List (List Char × Option (List Char)))
  | [] => some []
  | line :: rest =>
      match parse_item line with
      | none => none
      | some item =>
          match parse_lines rest with
          | none => none
          | some items => some (item :: items)

/-- `parse_output` (`hostapd_ctrl.c:110-145`): tokenise the buffer on
`'\n'` — `strtok_r` semantics, i.e. the maximal non-empty chunks between
newlines — and parse each line.  An input with no token at all leaves
`head == NULL` and the C returns NULL. -/
def parse_output (buf : List Char) : Option (List (List Char × Option (List Char))) :=
  let lines := (buf.splitOn '\n').filter fun l => !l.isEmpty
  if lines.isEmpty then none else parse_lines lines

theorem takeWhile_not_delim (delims : List Char) :
    ∀ (k rest : List Char), (∀ c ∈ k, isDelim delims c = false) →
      (∀ d r, rest = d :: r → isDelim delims d = true) →
      (k ++ rest).takeWhile (fun c => !(isDelim delims c)) = k := by
  intro k
  induction k with
  | nil =>
      intro rest _ hrest
      cases rest with
      | nil => rfl
      | cons d r =>
          simp [List.takeWhile_cons, hrest d r rfl]
  | cons a k ih =>
      intro rest hk hrest
      have ha : isDelim delims a = false := hk a (List.mem_cons_self a k)
      simp only [List.cons_append, List.takeWhile_cons, ha]
      simp only [Bool.not_false, if_true]
      rw [ih rest (fun c hc => hk c (List.mem_cons_of_mem a hc)) hrest]

/-- `strtok_r` on `token ++ remainder` where the token is non-empty and
delimiter-free and the remainder starts with a delimiter (or is empty):
the token is returned and the leading delimiter consumed. -/
theorem strtokFirst_clean (delims : List Char) (k rest : List Char)
    (hk : k ≠ []) (hclean : ∀ c ∈ k, isDelim delims c = false)
    (hrest : ∀ d r, rest = d :: r → isDelim delims d = true) :
    strtokFirst delims (k ++ rest) = some (k, rest.tail) := by
  cases k with
  | nil => exact absurd rfl hk
  | cons a k =>
      have ha : isDelim delims a = false := hclean a (List.mem_cons_self a k)
      have hdrop : (a :: k ++ rest).dropWhile (fun c => isDelim delims c) =
          a :: (k ++ rest) := by
        simp [List.dropWhile_cons, ha]
      have htok : (a :: (k ++ rest)).takeWhile (fun c => !(isDelim delims c)) =
          a :: k := by
        have h2 := takeWhile_not_delim delims (a :: k) rest hclean hrest
        simpa using h2
      unfold strtokFirst
      rw [hdrop]
      simp only [htok]
      have hlen : (a :: (k ++ rest)).drop (a :: k).length = rest := by
        have h3 : a :: (k ++ rest) = (a :: k) ++ rest := by simp
        rw [h3]
        exact List.drop_left (a :: k) rest
      rw [hlen]

/-- Stripping the `<N>` tag: `dropWhile (≠ '>')` leaves the part from
the first `'>'` on. -/
theorem dropWhile_until_gt :
    ∀ (pre post : List Char), (∀ c ∈ pre, c ≠ '>') →
      (pre ++ '>' :: post).dropWhile (fun c => c != '>') = '>' :: post := by
  intro pre
  induction pre with
  | nil => intro post _; simp [List.dropWhile_cons]
  | cons a pre ih =>
      intro post hpre
      have ha : a ≠ '>' := hpre a (List.mem_cons_self a pre)
      simp only [List.cons_append, List.dropWhile_cons]
      simp only [bne_iff_ne, ne_eq, ha, not_false_eq_true, if_true]
      exact ih post fun c hc => hpre c (List.mem_cons_of_mem a hc)

/-- Counterexample to C8 as stated: the first `strtok_r` in `parse_item`
uses the delimiter set `"= "` — equals sign *or space* — so the line
`"a b"`, which contains no `'='` at all, is parsed into a `{key "a",
value "b"}` pair instead of the key-only item the claim requires. -/
theorem c8_space_split_counterexample :
    parse_output ("a b".data) = some [(['a'], some ['b'])] ∧
    parse_output ("a b".data) ≠ some [("a b".data, none)] := by
  constructor
  · rfl
  · intro h
    rw [show parse_output ("a b".data) = some [(['a'], some ['b'])] from rfl] at h
    injection h with h
    simp at h

/-- **C8** (amended): the response buffer is split on newline (empty
chunks dropped); each line's key is its first token delimited by `'='`
*or space*, with a leading `'<N>'` tag stripped; the value is the
following token delimited by `'='` (so it ends at any further `'='`);
lines consisting of a single such token become key-only items.  For
lines of the shape `KEY=VALUE` with `KEY` free of `'='`/`' '` and
`VALUE` free of `'='` this is exactly the claim's split-once-on-`'='`;
the S1 scenario parses to the three expected siblings. -/
theorem c8_parse_output (k v tag : List Char)
    (hk : k ≠ []) (hkc : ∀ c ∈ k, c ≠ '=' ∧ c ≠ ' ')
    (hkh : k.head? ≠ some '<')
    (hv : v ≠ []) (hvc : ∀ c ∈ v, c ≠ '=')
    (htag : ∀ c ∈ tag, c ≠ '>' ∧ c ≠ '=' ∧ c ≠ ' ') :
    parse_item (k ++ '=' :: v) = some (k, some v) ∧
    parse_item k = some (k, none) ∧
    parse_item ('<' :: tag ++ '>' :: k ++ '=' :: v) = some (k, some v) ∧
    parse_output ("bssid=02:00:00:00:00:00\nfreq=2412\nflags=[AUTH][ASSOC]\n".data) =
      some [("bssid".data, some ("02:00:00:00:00:00".data)),
        ("freq".data, some ("2412".data)),
        ("flags".data, some ("[AUTH][ASSOC]".data))] := by
  have hkdelim : ∀ c ∈ k, isDelim ['=', ' '] c = false := by
    intro c hc
    obtain ⟨h1, h2⟩ := hkc c hc
    simp [isDelim, h1, h2]
  have hvdelim : ∀ c ∈ v, isDelim ['='] c = false := by
    intro c hc
    simp [isDelim, hvc c hc]
  have hvalue : strtokFirst ['='] v = some (v, []) := by
    have h2 := strtokFirst_clean ['='] v [] hv hvdelim (by intro d r h; cases h)
    simpa using h2
  refine ⟨?_, ?_, ?_, ?_⟩
  · have h1 : strtokFirst ['=', ' '] (k ++ '=' :: v) = some (k, v) := by
      have h2 := strtokFirst_clean ['=', ' '] k ('=' :: v) hk hkdelim
        (by intro d r h; injection h with h3 _; subst h3; rfl)
      simpa using h2
    unfold parse_item
    rw [h1]
    simp only [hkh, if_false, reduceIte]
    rw [hvalue]
  · have h1 : strtokFirst ['=', ' '] k = some (k, []) := by
      have h2 := strtokFirst_clean ['=', ' '] k [] hk hkdelim (by intro d r h; cases h)
      simpa using h2
    unfold parse_item
    rw [h1]
    simp only [hkh, if_false, reduceIte]
    rfl
  · have htagdelim : ∀ c ∈ '<' :: tag ++ '>' :: k, isDelim ['=', ' '] c = false := by
      intro c hc
      rcases List.mem_cons.mp hc with h | h
      · subst h; rfl
      · rcases List.mem_append.mp h with h | h
        · obtain ⟨_, h2, h3⟩ := htag c h
          simp [isDelim, h2, h3]
        · rcases List.mem_cons.mp h with h | h
          · subst h; rfl
          · exact hkdelim c h
    have h1 : strtokFirst ['=', ' '] (('<' :: tag ++ '>' :: k) ++ '=' :: v) =
        some ('<' :: tag ++ '>' :: k, v) := by
      have h2 := strtokFirst_clean ['=', ' '] ('<' :: tag ++ '>' :: k) ('=' :: v)
        (by simp) htagdelim
        (by intro d r h; injection h with h3 _; subst h3; rfl)
      simpa using h2
    have hshape : '<' :: tag ++ '>' :: k ++ '=' :: v =
        ('<' :: tag ++ '>' :: k) ++ '=' :: v := by simp
    unfold parse_item
    rw [hshape, h1]
    have hany : ('<' :: tag ++ '>' :: k).any (fun c => c == '>') = true := by
      simp only [List.any_eq_true]
      exact ⟨'>', by simp, by simp⟩
    have hdrop2 : (('<' :: tag ++ '>' :: k).dropWhile fun c => c != '>') =
        '>' :: k := by
      have h3 := dropWhile_until_gt ('<' :: tag) k
        (by
          intro c hc
          rcases List.mem_cons.mp hc with h | h
          · subst h; decide
          · exact (htag c h).1)
      simpa using h3
    simp only [List.head?_cons, hany, if_true, hdrop2, List.tail_cons]
    rw [hvalue, if_pos (show ('<' :: tag ++ '>' :: k).head? = some '<' from rfl)]
  · rfl

/-- Witness for C8: the general key/value facts applied at
`k = "key"`, `v = "val:1"`, `tag = "3"`, alongside the concrete S1
parse. -/
theorem c8_parse_output_witness :
    (("key".data ≠ []) ∧ ("val:1".data ≠ [])) ∧
    (parse_item ("key".data ++ '=' :: "val:1".data) =
        some ("key".data, some ("val:1".data)) ∧
      parse_item ("key".data) = some ("key".data, none) ∧
      parse_item ('<' :: "3".data ++ '>' :: "key".data ++ '=' :: "val:1".data) =
        some ("key".data, some ("val:1".data)) ∧
      parse_output ("bssid=02:00:00:00:00:00\nfreq=2412\nflags=[AUTH][ASSOC]\n".data) =
        some [("bssid".data, some ("02:00:00:00:00:00".data)),
          ("freq".data, some ("2412".data)),
          ("flags".data, some ("[AUTH][ASSOC]".data))]) :=
  ⟨⟨by decide, by decide⟩,
    c8_parse_output ("key".data) ("val:1".data) ("3".data)
      (by decide) (by decide) (by decide) (by decide) (by decide) (by decide)⟩

/-! ## Data item searches and the flag predicate (`src/engine/helpers.c`) -/

/-- A data item key (`mmsm_key_t`): tagged `uint32` or owned string. -/
inductive MmsmKey where
  | u32 (n : Nat)
  | str (s : List Char)
  deriving DecidableEq, Repr

/-- A data item viewed along its sibling chain (`mmsm_data_item_t`).
`value = none` models a NULL `mmsm_value`.  The `mmsm_sub_values`
children are omitted: the sibling searches used here never inspect
them. -/
structure MmsmItem where
  key : MmsmKey
  value : Option (List Char)
  deriving DecidableEq, Repr

/-- `mmsm_find_value_by_key` (`helpers.c:136-150`): first sibling whose
key is the given string; its `mmsm_value` is returned as found — which
is NULL both when no sibling matches and when the matching item carries
no value. -/
def mmsm_find_value_by_key : List MmsmItem → List Char → Option (List Char)
  | [], _ => none
  | it :: rest, key =>
      match it.key with
      | .str s => if s = key then it.value else mmsm_find_value_by_key rest key
      | .u32 _ => mmsm_find_value_by_key rest key

/-- Byte-wise prefix test, the inner loop of `strstr`. -/
def listIsPrefixOf : List Char → List Char → Bool
  | [], _ => true
  | _ :: _, [] => false
  | a :: as, b :: bs => a == b && listIsPrefixOf as bs

/-- `strstr(hay, needle) != NULL`: the needle occurs at some offset. -/
def strstrContains (hay needle : List Char) : Bool :=
  (List.range (hay.length + 1)).any fun i => listIsPrefixOf needle (hay.drop i)

/-- `mmsm_is_flag_set_in` (`helpers.c:232-248`): wrap the flag as
`"[" ++ flag ++ "]"` and search for it in the value found under `key`.
`none` marks the undefined `strstr(NULL, …)` call taken when the key is
absent or carries no value. -/
def mmsm_is_flag_set_in (result : List MmsmItem) (key flag : List Char) :
    Option Bool :=
  match mmsm_find_value_by_key result key with
  | none => none
  | some v => some (strstrContains v ('[' :: flag ++ [']']))

theorem listIsPrefixOf_iff :
    ∀ (needle hay : List Char),
      listIsPrefixOf needle hay = true ↔ ∃ post, hay = needle ++ post := by
  intro needle
  induction needle with
  | nil => intro hay; simp [listIsPrefixOf]
  | cons a as ih =>
      intro hay
      cases hay with
      | nil =>
          simp [listIsPrefixOf]
      | cons b bs =>
          simp only [listIsPrefixOf, Bool.and_eq_true, beq_iff_eq, ih bs,
            List.cons_append, List.cons.injEq]
          constructor
          · rintro ⟨h1, post, h2⟩
            exact ⟨post, h1.symm, h2⟩
          · rintro ⟨post, h1, h2⟩
            exact ⟨h1.symm, post, h2⟩

theorem strstrContains_iff (hay needle : List Char) :
    strstrContains hay needle = true ↔
      ∃ pre post, hay = pre ++ needle ++ post := by
  unfold strstrContains
  rw [List.any_eq_true]
  constructor
  · rintro ⟨i, hi, hp⟩
    obtain ⟨post, hpost⟩ := (listIsPrefixOf_iff needle (hay.drop i)).mp hp
    refine ⟨hay.take i, post, ?_⟩
    calc hay = hay.take i ++ hay.drop i := (List.take_append_drop i hay).symm
      _ = hay.take i ++ needle ++ post := by rw [hpost, List.append_assoc]
  · rintro ⟨pre, post, hsplit⟩
    refine ⟨pre.length, ?_, ?_⟩
    · rw [List.mem_range]
      have h2 : pre.length ≤ hay.length := by
        rw [hsplit, List.length_append, List.length_append]
        omega
      omega
    · rw [(listIsPrefixOf_iff needle (hay.drop pre.length))]
      refine ⟨post, ?_⟩
      rw [hsplit, List.append_assoc, List.drop_left]

/-- **C9**: whenever the lookup under string key `K` yields a value,
`mmsm_is_flag_set_in(result, K, F)` returns true exactly when the
bracketed token `[F]` appears as a literal substring of that value (the
`flag.length` bound keeps the search inside the C's 1024-byte
`wrapped_flag` buffer; with the key absent or valueless, the C passes
NULL to `strstr`, the undefined case excluded here). -/
theorem c9_is_flag_set_in (result : List MmsmItem) (key flag v : List Char)
    (hv : mmsm_find_value_by_key result key = some v)
    (_hlen : flag.length ≤ 1021) :
    (mmsm_is_flag_set_in result key flag = some true ↔
      ∃ pre post, v = pre ++ ('[' :: flag ++ [']']) ++ post) ∧
    (mmsm_is_flag_set_in result key flag = some false ↔
      ¬ ∃ pre post, v = pre ++ ('[' :: flag ++ [']']) ++ post) := by
  have hred : mmsm_is_flag_set_in result key flag =
      some (strstrContains v ('[' :: flag ++ [']'])) := by
    unfold mmsm_is_flag_set_in
    rw [hv]
  rw [hred]
  constructor
  · rw [← strstrContains_iff v ('[' :: flag ++ [']'])]
    constructor
    · intro h; injection h
    · intro h; rw [h]
  · rw [← strstrContains_iff v ('[' :: flag ++ [']'])]
    constructor
    · intro h
      injection h with h
      rw [h]
      simp
    · intro h
      have h2 : strstrContains v ('[' :: flag ++ [']']) = false := by
        cases hb : strstrContains v ('[' :: flag ++ [']']) with
        | true => exact absurd hb h
        | false => rfl
      rw [h2]

/-- Witness for C9 at the spec's S1 flags item: `[AUTH]` is found in
`"[AUTH][ASSOC]"`, `[CONNECTED]` is not. -/
theorem c9_is_flag_set_in_witness :
    mmsm_find_value_by_key [⟨MmsmKey.str ("flags".data),
        some ("[AUTH][ASSOC]".data)⟩] ("flags".data) =
      some ("[AUTH][ASSOC]".data) ∧
    mmsm_is_flag_set_in [⟨MmsmKey.str ("flags".data), some ("[AUTH][ASSOC]".data)⟩]
      ("flags".data) ("AUTH".data) = some true ∧
    mmsm_is_flag_set_in [⟨MmsmKey.str ("flags".data), some ("[AUTH][ASSOC]".data)⟩]
      ("flags".data) ("CONNECTED".data) = some false :=
  ⟨by decide,
    (c9_is_flag_set_in [⟨MmsmKey.str ("flags".data), some ("[AUTH][ASSOC]".data)⟩]
      ("flags".data) ("AUTH".data) ("[AUTH][ASSOC]".data) (by decide)
      (by decide)).1.mpr ⟨[], "[ASSOC]".data, by decide⟩,
    by decide⟩

end SmartManager
